import Mathlib

/-!
Verification development for the document-formatting core of `inlyne`
(src/interpreter/hir.rs and src/interpreter/ast.rs).

The first part embeds the data model: the tag vocabulary, parsed
attributes, styles, the inherited formatting state, styled text
fragments, text boxes, tables and output elements.  Machine floats
(`f32`) are embedded as rationals, `u32` colors as naturals.

Types whose Rust sources are outside the shown files (the tag
vocabulary `html.rs`, the text primitives `text.rs`, the table type
`table.rs`, the theme) are modelled from the spec; each such definition
says so in its doc comment.  Everything else is translated directly
from the two source files.
-/

/-- Modelled from the spec (external vocabulary, `utils.rs`): horizontal
alignment of a text box. -/
inductive Align where
  | Left
  | Center
  | Right
  deriving Repr, DecidableEq

/-- Modelled from the spec (external `html/style.rs`): font weight of a
span style. -/
inductive FontWeight where
  | Normal
  | Bold
  deriving Repr, DecidableEq

/-- Modelled from the spec (external `html/style.rs`): font style of a
span style. -/
inductive FontStyle where
  | Normal
  | Italic
  deriving Repr, DecidableEq

/-- Modelled from the spec (external `html/style.rs`): text decoration of
a span style. -/
inductive TextDecoration where
  | Normal
  | Underline
  deriving Repr, DecidableEq

/-- Modelled from the spec (external `html/style.rs`): one parsed style
declaration.  Colors are abstract naturals. -/
inductive Style where
  | Color (c : Nat)
  | FontWeight (w : FontWeight)
  | FontStyle (s : FontStyle)
  | TextDecoration (d : TextDecoration)
  | BackgroundColor (c : Nat)
  deriving Repr, DecidableEq

/-- Modelled from the spec (external attribute-parsing service,
`html/attr.rs`): one parsed attribute.  Style strings arrive already
parsed into declarations, mirroring the external styling-string parser
that the spec excludes from the core. -/
inductive Attr where
  | Href (s : String)
  | Anchor (s : String)
  | IsCheckbox
  | IsChecked
  | Start (n : Nat)
  | Styles (decls : List Style)
  | AlignAttr (a : Align)
  deriving Repr, DecidableEq

/-- Attribute accessor used by `ast.rs` (`attr.to_align()`). -/
def Attr.to_align : Attr → Option Align
  | .AlignAttr a => some a
  | _ => none

/-- Attribute accessor used by `ast.rs` (`attr.to_style()`); returns the
parsed declarations directly. -/
def Attr.to_style : Attr → Option (List Style)
  | .Styles decls => some decls
  | _ => none

/-- Attribute accessor used by `ast.rs` (`attr.to_anchor()`). -/
def Attr.to_anchor : Attr → Option String
  | .Anchor s => some s
  | _ => none

/-- Modelled from the spec (external vocabulary): heading levels. -/
inductive HeaderType where
  | H1
  | H2
  | H3
  | H4
  | H5
  | H6
  deriving Repr, DecidableEq

/-- Modelled from the spec (external vocabulary): per-level font-size
multiplier of a heading. -/
def HeaderType.size_multiplier : HeaderType → Rat
  | .H1 => 2
  | .H2 => 3 / 2
  | .H3 => 117 / 100
  | .H4 => 1
  | .H5 => 83 / 100
  | .H6 => 67 / 100

/-- Tag kinds recognised by the interpreter; the closed enumeration
matched exhaustively in `FlowProcess::process` (ast.rs). -/
inductive TagName where
  | Paragraph
  | Anchor
  | Div
  | BlockQuote
  | BoldOrStrong
  | Break
  | Code
  | Details
  | Summary
  | Section
  | EmphasisOrItalic
  | Header (h : HeaderType)
  | HorizontalRuler
  | Picture
  | Source
  | Image
  | Input
  | ListItem
  | OrderedList
  | UnorderedList
  | PreformattedText
  | Small
  | Span
  | Strikethrough
  | Table
  | TableHead
  | TableBody
  | TableRow
  | TableDataCell
  | TableHeader
  | Underline
  | Root
  deriving Repr, DecidableEq

/-- Modelled from the spec (external vocabulary, `TagName::try_from`):
resolves a raw tag name to a recognised tag kind; unknown names give
`none`.  The synthetic `Root` tag has no name. -/
def TagName.ofName : String → Option TagName
  | "p" => some .Paragraph
  | "a" => some .Anchor
  | "div" => some .Div
  | "blockquote" => some .BlockQuote
  | "b" => some .BoldOrStrong
  | "strong" => some .BoldOrStrong
  | "br" => some .Break
  | "code" => some .Code
  | "details" => some .Details
  | "summary" => some .Summary
  | "section" => some .Section
  | "em" => some .EmphasisOrItalic
  | "i" => some .EmphasisOrItalic
  | "h1" => some (.Header .H1)
  | "h2" => some (.Header .H2)
  | "h3" => some (.Header .H3)
  | "h4" => some (.Header .H4)
  | "h5" => some (.Header .H5)
  | "h6" => some (.Header .H6)
  | "hr" => some .HorizontalRuler
  | "picture" => some .Picture
  | "source" => some .Source
  | "img" => some .Image
  | "input" => some .Input
  | "li" => some .ListItem
  | "ol" => some .OrderedList
  | "ul" => some .UnorderedList
  | "pre" => some .PreformattedText
  | "small" => some .Small
  | "span" => some .Span
  | "s" => some .Strikethrough
  | "del" => some .Strikethrough
  | "table" => some .Table
  | "thead" => some .TableHead
  | "tbody" => some .TableBody
  | "tr" => some .TableRow
  | "td" => some .TableDataCell
  | "th" => some .TableHeader
  | "u" => some .Underline
  | _ => none

/-- Modelled from the spec (external vocabulary reports void-ness):
intrinsically void tags create no scope during construction. -/
def TagName.isVoid : TagName → Bool
  | .Break => true
  | .HorizontalRuler => true
  | .Image => true
  | .Input => true
  | .Source => true
  | _ => false

/-- Span style used for inline code-styled runs (ast.rs `Span`, source in
the uncovered `interpreter` module; modelled from the spec: color,
weight, style, decoration). -/
structure Span where
  color : Nat
  weight : FontWeight
  style : FontStyle
  decor : TextDecoration
  deriving Repr, DecidableEq

/-- Span with all fields at their defaults. -/
def Span.default : Span :=
  { color := 0, weight := .Normal, style := .Normal, decor := .Normal }

/-- Constructor `Span::with_color` used by `InheritedState::with_span_color`. -/
def Span.with_color (c : Nat) : Span :=
  { Span.default with color := c }

/-- Text-options bundle of the inherited state (ast.rs `TextOptions`). -/
structure TextOptions where
  underline : Bool
  bold : Bool
  italic : Bool
  strike_through : Bool
  small : Bool
  code : Bool
  pre_formatted : Bool
  block_quote : Nat
  align : Option Align
  link : Option String
  deriving Repr, DecidableEq

/-- Default `TextOptions` (Rust `Default` derive). -/
def TextOptions.default : TextOptions :=
  { underline := false, bold := false, italic := false,
    strike_through := false, small := false, code := false,
    pre_formatted := false, block_quote := 0, align := none, link := none }

/-- Inherited formatting state threaded down the tree (ast.rs
`InheritedState`). -/
structure InheritedState where
  global_indent : Rat
  text_options : TextOptions
  span : Span
  deriving Repr, DecidableEq

/-- Constructor `InheritedState::with_span_color` (ast.rs). -/
def InheritedState.with_span_color (c : Nat) : InheritedState :=
  { global_indent := 0, text_options := TextOptions.default,
    span := Span.with_color c }

/-- Method `InheritedState::set_align` (ast.rs): keeps the existing
alignment when the argument is `none`. -/
def InheritedState.set_align (s : InheritedState) (a : Option Align) : InheritedState :=
  { s with text_options := { s.text_options with
      align := match a with | some x => some x | none => s.text_options.align } }

/-- Method `InheritedState::set_align_from_attributes` (ast.rs). -/
def InheritedState.set_align_from_attributes (s : InheritedState)
    (attributes : List Attr) : InheritedState :=
  s.set_align (attributes.findSome? Attr.to_align)

/-- Modelled from the spec (external `text.rs`): font family of a
fragment. -/
inductive Family where
  | SansSerif
  | Monospace
  deriving Repr, DecidableEq

/-- Modelled from the spec (external `text.rs`): one styled text
fragment — a run of text with a single resolved style. -/
structure Text where
  text : String
  scale : Rat
  color : Nat
  is_bold : Bool
  is_italic : Bool
  is_underlined : Bool
  is_striked : Bool
  font_family : Family
  link : Option String
  deriving Repr, DecidableEq

/-- Modelled from the spec: `Text::new(text, hidpi_scale, color)`. -/
def Text.new (t : String) (scale : Rat) (color : Nat) : Text :=
  { text := t, scale := scale, color := color, is_bold := false,
    is_italic := false, is_underlined := false, is_striked := false,
    font_family := .SansSerif, link := none }

/-- Modelled from the spec: builder `Text::with_color`. -/
def Text.with_color (t : Text) (c : Nat) : Text := { t with color := c }

/-- Modelled from the spec: builder `Text::make_bold`. -/
def Text.make_bold (t : Text) (b : Bool) : Text := { t with is_bold := b }

/-- Modelled from the spec: builder `Text::make_italic`. -/
def Text.make_italic (t : Text) (b : Bool) : Text := { t with is_italic := b }

/-- Modelled from the spec: builder `Text::make_underlined`. -/
def Text.make_underlined (t : Text) (b : Bool) : Text := { t with is_underlined := b }

/-- Modelled from the spec: builder `Text::make_striked`. -/
def Text.make_striked (t : Text) (b : Bool) : Text := { t with is_striked := b }

/-- Modelled from the spec: builder `Text::with_family`. -/
def Text.with_family (t : Text) (f : Family) : Text := { t with font_family := f }

/-- Modelled from the spec: builder `Text::with_link`. -/
def Text.with_link (t : Text) (l : String) : Text := { t with link := some l }

/-- Modelled from the spec (external `text.rs`): the accumulating text
box — an ordered sequence of fragments plus box-level properties. -/
structure TextBox where
  texts : List Text
  scale : Rat
  indent : Rat
  align : Align
  anchor : Option String
  background_color : Option Nat
  is_code_block : Bool
  is_quote_block : Option Nat
  is_checkbox : Option Bool
  font_size : Rat
  deriving Repr, DecidableEq

/-- Modelled from the spec: `TextBox::new(texts, hidpi_scale)` with
default box-level properties. -/
def TextBox.new (texts : List Text) (scale : Rat) : TextBox :=
  { texts := texts, scale := scale, indent := 0, align := .Left,
    anchor := none, background_color := none, is_code_block := false,
    is_quote_block := none, is_checkbox := none, font_size := 16 }

/-- Modelled from the spec: `TextBox::set_anchor`. -/
def TextBox.set_anchor (tb : TextBox) (a : String) : TextBox :=
  { tb with anchor := some a }

/-- Modelled from the spec: `TextBox::set_checkbox`. -/
def TextBox.set_checkbox (tb : TextBox) (c : Option Bool) : TextBox :=
  { tb with is_checkbox := c }

/-- Modelled from the spec: `TextBox::set_code_block`. -/
def TextBox.set_code_block (tb : TextBox) (b : Bool) : TextBox :=
  { tb with is_code_block := b }

/-- Modelled from the spec: `TextBox::set_quote_block`. -/
def TextBox.set_quote_block (tb : TextBox) (n : Nat) : TextBox :=
  { tb with is_quote_block := some n }

/-- Modelled from the spec: `TextBox::set_background_color`. -/
def TextBox.set_background_color (tb : TextBox) (c : Nat) : TextBox :=
  { tb with background_color := some c }

/-- Modelled from the spec: `TextBox::set_align_or_default`. -/
def TextBox.set_align_or_default (tb : TextBox) (a : Option Align) : TextBox :=
  { tb with align := a.getD .Left }

/-- Table output element (external `table.rs`; modelled from the spec:
an ordered sequence of rows, each an ordered sequence of cell boxes). -/
structure Table where
  rows : List (List TextBox)
  deriving Repr, DecidableEq

/-- Modelled from the spec: `Table::new()` with no rows. -/
def Table.new : Table := { rows := [] }

/-- Output element (crate-root `Element`; modelled from the spec: a
tagged union of text box, spacer and table).  A spacer carries only its
visibility. -/
inductive Element where
  | textBox (tb : TextBox)
  | spacer (visible : Bool)
  | table (t : Table)
  deriving Repr, DecidableEq

/-- Modelled from the spec (external theme config): the recognised color
options, as abstract naturals. -/
structure Theme where
  text_color : Nat
  code_color : Nat
  link_color : Nat
  deriving Repr, DecidableEq

/-- Interpreter options (ast.rs `AstOpts`).  The anchorizer's
document-wide dedup state and the GPU surface format are elided; the
claims under verification do not depend on them. -/
structure AstOpts where
  theme : Theme
  hidpi_scale : Rat
  deriving Repr, DecidableEq

/-- Modelled from the spec (external `color.rs` `native_color`): converts
a theme color for the surface format; on abstract colors the conversion
is the identity. -/
def AstOpts.native_color (_opts : AstOpts) (c : Nat) : Nat := c

/-- Modelled from the spec (external comrak `Anchorizer`): produces a
slug for a heading; the document-wide dedup state is elided. -/
def anchorize (s : String) : String := s

/-- Content item of a node: literal text or an arena index of a child
node (hir.rs `TextOrHirNode`, arena revision consumed by ast.rs). -/
inductive TextOrHirNode where
  | Text (s : String)
  | Hir (idx : Nat)
  deriving Repr, DecidableEq

/-- Arena node consumed by the interpreter (hir.rs `HirNode`, arena
revision: tag kind, parsed attributes, ordered content). -/
structure HirNode where
  tag : TagName
  attributes : List Attr
  content : List TextOrHirNode
  deriving Repr, DecidableEq

/-!
Embedding of the tree builder actually present in src (hir.rs): nodes
are `Rc<RefCell<HirNode>>` cells with a `Weak` back-reference to the
parent.  The heap of cells is embedded as a store (list) of nodes;
`Rc`/`Weak` pointers become indices into the store, a dangling `Weak`
becomes `none`.
-/

namespace RcHir

/-- Tag kind of an html5ever token (hir.rs `TagKind`). -/
inductive TagKind where
  | StartTag
  | EndTag
  deriving Repr, DecidableEq

/-- An html5ever tag token: kind, raw name, parsed attributes,
self-closing flag (attribute parsing happens in the external service,
so attributes arrive parsed). -/
structure Tag where
  kind : TagKind
  name : String
  attrs : List Attr
  self_closing : Bool
  deriving Repr, DecidableEq

/-- An html5ever token, as matched by `Hir::process_token` (hir.rs). -/
inductive Token where
  | TagToken (tag : Tag)
  | CharacterTokens (s : String)
  | EOFToken
  | ParseError (err : String)
  | DoctypeToken
  | CommentToken (s : String)
  | NullCharacterToken
  deriving Repr, DecidableEq

/-- Pointer-graph node (hir.rs `HirNode`, Rc revision): weak parent
pointer, tag, attributes, ordered content.  Child references in
`content` are store indices. -/
structure HirNode where
  parent : Option Nat
  tag : TagName
  attributes : List Attr
  content : List TextOrHirNode
  deriving Repr, DecidableEq

/-- Builder state (hir.rs `Hir`): the store embeds the Rc heap; index 0
is the root cell (`content` field of the Rust struct), `current` points
at the node under construction, `to_close` is the closing stack with
its top at the head. -/
structure Hir where
  store : List HirNode
  current : Nat
  to_close : List TagName
  deriving Repr, DecidableEq

/-- Constructor `Hir::new` (hir.rs): a root node with tag `Root`, no
parent, current at the root, closing stack holding `Root`. -/
def Hir.new : Hir :=
  { store := [{ parent := none, tag := .Root, attributes := [], content := [] }],
    current := 0,
    to_close := [.Root] }

/-- Appends a content item to the node cell at index `i`
(`borrow_mut().content.push(..)`). -/
def Hir.pushContent (h : Hir) (i : Nat) (item : TextOrHirNode) : Hir :=
  match h.store[i]? with
  | some nd => { h with store := h.store.set i { nd with content := nd.content ++ [item] } }
  | none => h

/-- Method `Hir::process_start_tag` (hir.rs): unknown tags are logged and
ignored; otherwise a new node is allocated with a weak parent pointer to
the current node, a child reference is pushed onto the current node's
content, and — unless the tag is self-closing — the new node becomes
current and its tag is pushed on the closing stack. -/
def Hir.process_start_tag (h : Hir) (tag : Tag) : Hir :=
  match TagName.ofName tag.name with
  | none => h
  | some tag_name =>
    let idx := h.store.length
    let node : HirNode :=
      { parent := some h.current, tag := tag_name,
        attributes := tag.attrs, content := [] }
    let h := { h with store := h.store ++ [node] }
    let h := h.pushContent h.current (.Hir idx)
    if tag.self_closing then h
    else { h with current := idx, to_close := tag_name :: h.to_close }

/-- Method `Hir::process_end_tag` (hir.rs).  Mirrors Rust `?`/`bail!`
control flow: mutations made before an early return persist (the
closing-stack pop), mutations after it do not (`self.current = parent`).
The second component is the error of the returned `anyhow::Result`. -/
def Hir.process_end_tag (h : Hir) (tag : Tag) : Hir × Option String :=
  match TagName.ofName tag.name with
  | none => (h, some "Missing implementation for start tag")
  | some tag_name =>
    match h.to_close with
    | [] => (h, some "Expected closing tag")
    | to_close :: rest =>
      let h := { h with to_close := rest }
      if tag_name ≠ to_close then
        (h, some "Expected other tag")
      else
        match (h.store[h.current]?).bind HirNode.parent with
        | none => (h, some "Node has no parent")
        | some parent => ({ h with current := parent }, none)

/-- Method `Hir::process_text` (hir.rs): pushes the string onto the
current node's content, unconditionally. -/
def Hir.process_text (h : Hir) (string : String) : Hir :=
  h.pushContent h.current (.Text string)

/-- Method `Hir::on_end` (hir.rs): only emits warnings for unclosed
tags; the state is unchanged. -/
def Hir.on_end (h : Hir) : Hir := h

/-- Method `Hir::process_token` (hir.rs `TokenSink` impl): dispatches on
the token; the `Result` of `process_end_tag` is dropped (`let _ = ...`),
so traversal always continues. -/
def Hir.process_token (h : Hir) (token : Token) : Hir :=
  match token with
  | .TagToken tag =>
    match tag.kind with
    | .StartTag => h.process_start_tag tag
    | .EndTag => (h.process_end_tag tag).1
  | .CharacterTokens s => h.process_text s
  | .EOFToken => h.on_end
  | .ParseError _ => h
  | .DoctypeToken => h
  | .CommentToken _ => h
  | .NullCharacterToken => h

end RcHir

/-!
Arena tree builder.  `ast.rs` consumes an arena revision of the builder
(`hir.content()` yields a `Vec<HirNode>` addressed by `usize` indices);
that revision's source is not among the shown files, so the builder is
modelled from the spec, faithful to section 4.1: `open` / `close` /
`text` / `end` events over an append-only arena with a transient
parent-index stack and a closing stack.
-/

/-- Modelled from the spec: one builder event (tag-open with
name, parsed attributes and self-closing flag; tag-close with name;
text run; end-of-stream). -/
inductive BEvent where
  | openTag (name : String) (attrs : List Attr) (selfClosing : Bool)
  | closeTag (name : String)
  | text (s : String)
  | eof
  deriving Repr, DecidableEq

/-- Modelled from the spec: arena-builder state — the append-only arena,
the parent-index stack (top at head, root below everything), the closing
stack (top at head). -/
structure Builder where
  arena : List HirNode
  parents : List Nat
  to_close : List TagName
  deriving Repr, DecidableEq

/-- Modelled from the spec: initial builder state — a root node with tag
`Root` at index 0, the parent stack holding the root. -/
def Builder.init : Builder :=
  { arena := [{ tag := .Root, attributes := [], content := [] }],
    parents := [0],
    to_close := [] }

/-- Current node of the builder: top of the parent-index stack. -/
def Builder.currentIdx (b : Builder) : Nat := b.parents.headD 0

/-- Appends a content item to the arena node at index `i`. -/
def Builder.pushContent (b : Builder) (i : Nat) (item : TextOrHirNode) : Builder :=
  match b.arena[i]? with
  | some nd => { b with arena := b.arena.set i { nd with content := nd.content ++ [item] } }
  | none => b

/-- Modelled from the spec (section 4.1 `open`): unknown tags are ignored;
otherwise a new node is appended to the arena, a child-reference content
item is appended to the current node, and — unless self-closing or void —
the new index is pushed on the parent stack and the tag on the closing
stack. -/
def Builder.openTag (b : Builder) (name : String) (attrs : List Attr)
    (selfClosing : Bool) : Builder :=
  match TagName.ofName name with
  | none => b
  | some tag_name =>
    let idx := b.arena.length
    let node : HirNode := { tag := tag_name, attributes := attrs, content := [] }
    let b' := { b with arena := b.arena ++ [node] }
    let b' := b'.pushContent b.currentIdx (.Hir idx)
    if selfClosing || tag_name.isVoid then b'
    else { b' with parents := idx :: b'.parents, to_close := tag_name :: b'.to_close }

/-- Modelled from the spec (section 4.1 `close`): unknown tags are
ignored, void tags are no-ops; the closing stack is popped, and whether
or not the popped tag matches, the parent stack is popped as well
(best-effort recovery). -/
def Builder.closeTag (b : Builder) (name : String) : Builder :=
  match TagName.ofName name with
  | none => b
  | some tag_name =>
    if tag_name.isVoid then b
    else
      match b.to_close with
      | [] => b
      | _ :: rest => { b with to_close := rest, parents := b.parents.tail }

/-- Modelled from the spec (section 4.1 `text`): a single standalone
newline is dropped when the current node's content is empty; otherwise
the string is appended as a text content item. -/
def Builder.textEvent (b : Builder) (s : String) : Builder :=
  if s = "\n" && ((b.arena[b.currentIdx]?).map HirNode.content).getD [] = [] then b
  else b.pushContent b.currentIdx (.Text s)

/-- Modelled from the spec (section 4.1 `end`): warnings only, the arena
is returned as-is. -/
def Builder.eofEvent (b : Builder) : Builder := b

/-- One builder step. -/
def Builder.step (b : Builder) : BEvent → Builder
  | .openTag name attrs sc => b.openTag name attrs sc
  | .closeTag name => b.closeTag name
  | .text s => b.textEvent s
  | .eof => b.eofEvent

/-- Runs the builder over a whole event sequence. -/
def Builder.run (events : List BEvent) : Builder :=
  events.foldl Builder.step Builder.init

/-!
Tree interpretation (ast.rs).  Rust's `&mut Vec<Element>` output and
`&mut TextBox` accumulator become explicit state passing; the
copy-on-write `Cow<InheritedState>` becomes pass-by-value.  The mutual
recursion over arena indices is embedded with a fuel parameter; on
exhausted fuel a call returns its state unchanged (theorems supply
sufficient fuel).
-/

/-- Modelled from the spec (external `positioner.rs`): the layout margin
constant; only its self-equality matters to the embedded code. -/
def DEFAULT_MARGIN : Rat := 100

/-- Rust `str::trim_start`: strips leading whitespace characters. -/
def trimStart (s : String) : String :=
  String.mk (s.data.dropWhile Char.isWhitespace)

/-- Rust `str::trim`: strips leading and trailing whitespace characters. -/
def trimBoth (s : String) : String :=
  String.mk (((s.data.dropWhile Char.isWhitespace).reverse.dropWhile Char.isWhitespace).reverse)

/-- Method `Process::get_node` (ast.rs): arena lookup.  The `none`
result is the out-of-range branch that `unwrap` turns into a panic. -/
def Process.get_node (input : List HirNode) (index : Nat) : Option HirNode :=
  input[index]?

/-- Total arena lookup used inside the interpreter: the panic of
`Process::get_node(..).unwrap()` is embedded as an inert `Root` node
(claim C2 shows the branch is unreachable for built trees). -/
def Process.getNodeD (input : List HirNode) (index : Nat) : HirNode :=
  (Process.get_node input index).getD { tag := .Root, attributes := [], content := [] }

/-- Appends one fragment to a box (`text_box.texts.push(..)`). -/
def TextBox.pushText (tb : TextBox) (t : Text) : TextBox :=
  { tb with texts := tb.texts ++ [t] }

/-- Word-boundary normalization shared by the newline and whitespace
branches of `Process::text` (ast.rs): pushes a single space fragment
when the box's last fragment ends in a non-whitespace character. -/
def Process.wordBoundarySpace (tb : TextBox) (opts : AstOpts) (tnc : Nat) : TextBox :=
  match tb.texts.getLast? with
  | some last_text =>
    match last_text.text.toList.getLast? with
    | some last_char =>
      if ¬last_char.isWhitespace then tb.pushText (Text.new " " opts.hidpi_scale tnc)
      else tb
    | none => tb
  | none => tb

/-- Method `Process::text` (ast.rs): the text-run composer. -/
def Process.text (text_box : TextBox) (string : String) (opts : AstOpts)
    (state : InheritedState) : TextBox :=
  let text_native_color := opts.native_color opts.theme.text_color
  if string = "\n" then
    let text_box :=
      if state.text_options.pre_formatted then
        text_box.pushText (Text.new "\n" opts.hidpi_scale text_native_color)
      else text_box
    Process.wordBoundarySpace text_box opts text_native_color
  else if trimBoth string = "" ∧ ¬state.text_options.pre_formatted then
    Process.wordBoundarySpace text_box opts text_native_color
  else
    let string :=
      if text_box.texts.isEmpty ∧ ¬state.text_options.pre_formatted then trimStart string
      else string
    let text := Text.new string opts.hidpi_scale text_native_color
    let text_box :=
      if state.text_options.block_quote ≥ 1 then
        text_box.set_quote_block state.text_options.block_quote
      else text_box
    let text :=
      if state.text_options.code then
        let t := (text.with_color state.span.color).with_family .Monospace
        let t := if state.span.weight = .Bold then t.make_bold true else t
        let t := if state.span.style = .Italic then t.make_italic true else t
        if state.span.decor = .Underline then t.make_underlined true else t
      else text
    let text :=
      match state.text_options.link with
      | some link => (text.with_link link).with_color (opts.native_color opts.theme.link_color)
      | none => text
    let text := if state.text_options.bold then text.make_bold true else text
    let text := if state.text_options.italic then text.make_italic true else text
    let text := if state.text_options.underline then text.make_underlined true else text
    let text := if state.text_options.strike_through then text.make_striked true else text
    let text_box := if state.text_options.small then { text_box with font_size := 12 } else text_box
    text_box.pushText text

/-- Method `Process::push_element` (ast.rs). -/
def Process.push_element (out : List Element) (e : Element) : List Element :=
  out ++ [e]

/-- Method `Process::push_spacer` (ast.rs): an invisible spacer. -/
def Process.push_spacer (out : List Element) : List Element :=
  Process.push_element out (.spacer false)

/-- Method `Process::push_text_box` (ast.rs): swaps the accumulator for
a fresh box carrying the current indent; the old box is appended to the
output only when some fragment has non-empty text; an entirely fragment-
free old box passes its checkbox state to the replacement. -/
def Process.push_text_box (out : List Element) (text_box : TextBox)
    (opts : AstOpts) (state : InheritedState) : List Element × TextBox :=
  let tb := text_box
  let text_box := { TextBox.new [] opts.hidpi_scale with indent := state.global_indent }
  if tb.texts ≠ [] then
    let content := tb.texts.any (fun t => t.text ≠ "")
    if content then
      (Process.push_element out (.textBox { tb with indent := state.global_indent }), text_box)
    else
      (out, text_box)
  else
    (out, { text_box with is_checkbox := tb.is_checkbox })

/-- Method `TableCellProcess::process` (ast.rs): appends one composed
cell box per literal text item to the current (last) row; header cells
are forced bold; non-text children are logged and ignored.  The Rust
`rows.last_mut().expect(..)` panic on a rowless table is embedded as a
no-op (the pipeline only reaches a cell after pushing a row). -/
def TableCellProcess.process (input : List HirNode) (out : List Element)
    (opts : AstOpts) (table : Table) (header : Bool) (node : HirNode)
    (state : InheritedState) : List Element × Table :=
  let state :=
    if header then { state with text_options := { state.text_options with bold := true } }
    else state
  match table.rows.getLast? with
  | none => (out, table)
  | some row0 =>
    let row := node.content.foldl
      (fun row item =>
        match item with
        | .Text t =>
          let tb := TextBox.new [] opts.hidpi_scale
          let tb := tb.set_align_or_default state.text_options.align
          let tb := Process.text tb t opts state
          row ++ [tb]
        | .Hir _ => row)
      row0
    (out, { table with rows := table.rows.dropLast ++ [row] })

/-- Method `TableRowProcess::process` (ast.rs): dispatches header and
data cells, setting the inherited alignment from each cell's own
attributes first; other children are logged and ignored. -/
def TableRowProcess.step (input : List HirNode) (opts : AstOpts)
    (state : InheritedState) (acc : List Element × Table)
    (item : TextOrHirNode) : List Element × Table :=
  match item with
  | .Text _ => acc
  | .Hir i =>
    let nd := Process.getNodeD input i
    let st := state.set_align_from_attributes nd.attributes
    match nd.tag with
    | .TableHeader => TableCellProcess.process input acc.1 opts acc.2 true nd st
    | .TableDataCell => TableCellProcess.process input acc.1 opts acc.2 false nd st
    | _ => acc

/-- Method `TableRowProcess::process` (ast.rs): see `TableRowProcess.step`. -/
def TableRowProcess.process (input : List HirNode) (out : List Element)
    (opts : AstOpts) (table : Table) (node : HirNode)
    (state : InheritedState) : List Element × Table :=
  node.content.foldl (TableRowProcess.step input opts state) (out, table)

/-- Method `TableHeadProcess::process` (ast.rs): each row child opens a
fresh empty row; other children are logged and ignored. -/
def TableHeadProcess.step (input : List HirNode) (opts : AstOpts)
    (state : InheritedState) (acc : List Element × Table)
    (item : TextOrHirNode) : List Element × Table :=
  match item with
  | .Text _ => acc
  | .Hir i =>
    let nd := Process.getNodeD input i
    match nd.tag with
    | .TableRow =>
      TableRowProcess.process input acc.1 opts
        { acc.2 with rows := acc.2.rows ++ [[]] } nd state
    | _ => acc

/-- Method `TableHeadProcess::process` (ast.rs): see `TableHeadProcess.step`. -/
def TableHeadProcess.process (input : List HirNode) (out : List Element)
    (opts : AstOpts) (table : Table) (node : HirNode)
    (state : InheritedState) : List Element × Table :=
  node.content.foldl (TableHeadProcess.step input opts state) (out, table)

/-- Method `TableProcess::process` (ast.rs): builds a fresh table from
the node's children (head/body groupings and direct rows), then appends
the table as one output element followed by an invisible spacer. -/
def TableProcess.step (input : List HirNode) (opts : AstOpts)
    (state : InheritedState) (acc : List Element × Table)
    (item : TextOrHirNode) : List Element × Table :=
  match item with
  | .Text _ => acc
  | .Hir i =>
    let nd := Process.getNodeD input i
    match nd.tag with
    | .TableHead => TableHeadProcess.process input acc.1 opts acc.2 nd state
    | .TableBody => TableHeadProcess.process input acc.1 opts acc.2 nd state
    | .TableRow =>
      TableRowProcess.process input acc.1 opts
        { acc.2 with rows := acc.2.rows ++ [[]] } nd state
    | _ => acc

/-- Method `TableProcess::process` (ast.rs): see `TableProcess.step`;
after the fold the table is appended as one output element followed by
an invisible spacer. -/
def TableProcess.process (input : List HirNode) (out : List Element)
    (opts : AstOpts) (node : HirNode) (state : InheritedState) : List Element :=
  let res := node.content.foldl (TableProcess.step input opts state) (out, Table.new)
  Process.push_spacer (Process.push_element res.1 (.table res.2))

/-- Start index of an ordered list (the attribute loop opening
`OrderedListProcess::process`, ast.rs): 1, or the last `start`
attribute. -/
def olStartIndex (attributes : List Attr) : Nat :=
  attributes.foldl (fun i attr => match attr with | .Start s => s | _ => i) 1

/-- Attribute loop of the `TagName::Input` arm of `FlowProcess::process`
(ast.rs): whether the input is a checkbox, and whether it is checked. -/
def FlowProcess.inputFlags (attributes : List Attr) : Bool × Bool :=
  attributes.foldl
    (fun (fl : Bool × Bool) attr =>
      match attr with
      | .IsCheckbox => (true, fl.2)
      | .IsChecked => (fl.1, true)
      | _ => fl)
    (false, false)

/-- Checkbox test opening `ListItemProcess::process` (ast.rs): the
item's first content child is a node with tag `Input` carrying the
checkbox attribute. -/
def ListItemProcess.firstChildCheckbox (input : List HirNode) (node : HirNode) : Bool :=
  match node.content.head? with
  | some (.Hir i) =>
    let nd := Process.getNodeD input i
    if nd.tag = .Input then nd.attributes.any (fun a => decide (a = .IsCheckbox))
    else false
  | _ => false

mutual

/-- Method `FlowProcess::process` (ast.rs): the tag-dispatch engine.
Exhausted fuel returns the state unchanged. -/
def FlowProcess.process (fuel : Nat) (input : List HirNode) (opts : AstOpts)
    (out : List Element) (tb : TextBox) (node : HirNode)
    (state : InheritedState) : List Element × TextBox :=
  match fuel with
  | 0 => (out, tb)
  | n + 1 =>
    let attributes := node.attributes
    match node.tag with
    | .Paragraph =>
      let (out, tb) := Process.push_text_box out tb opts state
      let state := state.set_align_from_attributes attributes
      let tb := tb.set_align_or_default state.text_options.align
      let (out, tb) := FlowProcess.processContent n input opts out tb node.content state
      let (out, tb) := Process.push_text_box out tb opts state
      (Process.push_spacer out, tb)
    | .Anchor =>
      let pair := attributes.foldl
        (fun (acc : InheritedState × TextBox) attr =>
          match attr with
          | .Href link =>
            ({ acc.1 with text_options := { acc.1.text_options with link := some link } }, acc.2)
          | .Anchor a => (acc.1, acc.2.set_anchor a)
          | _ => acc)
        (state, tb)
      FlowProcess.processContent n input opts out pair.2 node.content pair.1
    | .Div =>
      let (out, tb) := Process.push_text_box out tb opts state
      let state := state.set_align_from_attributes attributes
      let tb := tb.set_align_or_default state.text_options.align
      let (out, tb) := FlowProcess.processContent n input opts out tb node.content state
      Process.push_text_box out tb opts state
    | .BlockQuote =>
      let (out, tb) := Process.push_text_box out tb opts state
      let state := { state with
        text_options := { state.text_options with block_quote := state.text_options.block_quote + 1 },
        global_indent := state.global_indent + DEFAULT_MARGIN / 2 }
      let (out, tb) := FlowProcess.processContent n input opts out tb node.content state
      let indent := state.global_indent
      let (out, tb) := Process.push_text_box out tb opts state
      if indent = DEFAULT_MARGIN / 2 then (Process.push_spacer out, tb) else (out, tb)
    | .BoldOrStrong =>
      let state := { state with text_options := { state.text_options with bold := true } }
      FlowProcess.processContent n input opts out tb node.content state
    | .Break =>
      let (out, tb) := Process.push_text_box out tb opts state
      FlowProcess.processContent n input opts out tb node.content state
    | .Code =>
      let state := { state with text_options := { state.text_options with code := true } }
      FlowProcess.processContent n input opts out tb node.content state
    | .Details => (out, tb)
    | .Summary => (out, tb)
    | .Section => (out, tb)
    | .EmphasisOrItalic =>
      let state := { state with text_options := { state.text_options with italic := true } }
      FlowProcess.processContent n input opts out tb node.content state
    | .Header header =>
      let (out, tb) := Process.push_text_box out tb opts state
      let out := Process.push_spacer out
      let state := state.set_align_from_attributes attributes
      let tb := tb.set_align_or_default state.text_options.align
      let state := { state with text_options := { state.text_options with bold := true } }
      let tb := { tb with font_size := tb.font_size * header.size_multiplier }
      let state :=
        if header = .H1 then
          { state with text_options := { state.text_options with underline := true } }
        else state
      let (out, tb) := FlowProcess.processContent n input opts out tb node.content state
      let anchor := tb.texts.foldl (fun acc t => acc ++ t.text) ""
      let anchor := anchorize anchor
      let tb := tb.set_anchor ("#" ++ anchor)
      let (out, tb) := Process.push_text_box out tb opts state
      (Process.push_spacer out, tb)
    | .HorizontalRuler =>
      let out := Process.push_element out (.spacer true)
      FlowProcess.processContent n input opts out tb node.content state
    | .Picture => (out, tb)
    | .Source => (out, tb)
    | .Image => (out, tb)
    | .Input =>
      let flags := FlowProcess.inputFlags attributes
      let tb := if flags.1 then tb.set_checkbox (some flags.2) else tb
      FlowProcess.processContent n input opts out tb node.content state
    | .ListItem => (out, tb)
    | .OrderedList => OrderedListProcess.process n input opts out tb node state
    | .UnorderedList => UnorderedListProcess.process n input opts out tb node state
    | .PreformattedText =>
      let (out, tb) := Process.push_text_box out tb opts state
      let styleDecls := (attributes.findSome? Attr.to_style).getD []
      let tb := styleDecls.foldl
        (fun tb st =>
          match st with
          | .BackgroundColor color => tb.set_background_color (opts.native_color color)
          | _ => tb)
        tb
      let state := { state with text_options := { state.text_options with pre_formatted := true } }
      let tb := tb.set_code_block true
      let (out, tb) := FlowProcess.processContent n input opts out tb node.content state
      let (out, tb) := Process.push_text_box out tb opts state
      (Process.push_spacer out, tb)
    | .Small =>
      let state := { state with text_options := { state.text_options with small := true } }
      FlowProcess.processContent n input opts out tb node.content state
    | .Span =>
      let styleDecls := (attributes.findSome? Attr.to_style).getD []
      let state := styleDecls.foldl
        (fun s st =>
          match st with
          | .Color color => { s with span := { s.span with color := opts.native_color color } }
          | .FontWeight w => { s with span := { s.span with weight := w } }
          | .FontStyle fs => { s with span := { s.span with style := fs } }
          | .TextDecoration d => { s with span := { s.span with decor := d } }
          | _ => s)
        state
      FlowProcess.processContent n input opts out tb node.content state
    | .Strikethrough =>
      let state := { state with text_options := { state.text_options with strike_through := true } }
      FlowProcess.processContent n input opts out tb node.content state
    | .Table => (TableProcess.process input out opts node state, tb)
    | .TableHead => (out, tb)
    | .TableBody => (out, tb)
    | .TableRow => (out, tb)
    | .TableDataCell => (out, tb)
    | .TableHeader => (out, tb)
    | .Underline =>
      let state := { state with text_options := { state.text_options with underline := true } }
      FlowProcess.processContent n input opts out tb node.content state
    | .Root => (out, tb)
termination_by structural fuel

/-- Method `FlowProcess::process_content` (ast.rs): literal text goes to
the text-run composer, child references recurse into `process`.  One
unit of fuel is consumed per content item (an embedding artifact;
theorems supply sufficient fuel). -/
def FlowProcess.processContent (fuel : Nat) (input : List HirNode) (opts : AstOpts)
    (out : List Element) (tb : TextBox) (content : List TextOrHirNode)
    (state : InheritedState) : List Element × TextBox :=
  match fuel, content with
  | 0, _ => (out, tb)
  | _ + 1, [] => (out, tb)
  | n + 1, .Text s :: rest =>
    FlowProcess.processContent n input opts out (Process.text tb s opts state) rest state
  | n + 1, .Hir i :: rest =>
    let res := FlowProcess.process n input opts out tb (Process.getNodeD input i) state
    FlowProcess.processContent n input opts res.1 res.2 rest state
termination_by structural fuel

/-- Method `OrderedListProcess::process` (ast.rs): the running index
starts at 1 or at the (last) explicit start attribute; a trailing spacer
is emitted only for a non-nested list. -/
def OrderedListProcess.process (fuel : Nat) (input : List HirNode) (opts : AstOpts)
    (out : List Element) (tb : TextBox) (node : HirNode)
    (state : InheritedState) : List Element × TextBox :=
  match fuel with
  | 0 => (out, tb)
  | n + 1 =>
    let index := olStartIndex node.attributes
    let (out, tb) := Process.push_text_box out tb opts state
    let state := { state with global_indent := state.global_indent + DEFAULT_MARGIN / 2 }
    let (out, tb) := OrderedListProcess.olItems n input opts out tb node.content index state
    if state.global_indent = DEFAULT_MARGIN / 2 then (Process.push_spacer out, tb)
    else (out, tb)
termination_by structural fuel

/-- Item loop of `OrderedListProcess::process` (ast.rs `process_node`
call): list-item children consume and increment the running index, text
and misplaced children are skipped.  One unit of fuel per item. -/
def OrderedListProcess.olItems (fuel : Nat) (input : List HirNode) (opts : AstOpts)
    (out : List Element) (tb : TextBox) (items : List TextOrHirNode) (index : Nat)
    (state : InheritedState) : List Element × TextBox :=
  match fuel, items with
  | 0, _ => (out, tb)
  | _ + 1, [] => (out, tb)
  | n + 1, .Text _ :: rest => OrderedListProcess.olItems n input opts out tb rest index state
  | n + 1, .Hir i :: rest =>
    let nd := Process.getNodeD input i
    if nd.tag = .ListItem then
      let res := ListItemProcess.process n input opts out tb (some index) nd state
      OrderedListProcess.olItems n input opts res.1 res.2 rest (index + 1) state
    else OrderedListProcess.olItems n input opts out tb rest index state
termination_by structural fuel

/-- Method `UnorderedListProcess::process` (ast.rs): like the ordered
variant but passes no index to the items. -/
def UnorderedListProcess.process (fuel : Nat) (input : List HirNode) (opts : AstOpts)
    (out : List Element) (tb : TextBox) (node : HirNode)
    (state : InheritedState) : List Element × TextBox :=
  match fuel with
  | 0 => (out, tb)
  | n + 1 =>
    let (out, tb) := Process.push_text_box out tb opts state
    let state := { state with global_indent := state.global_indent + DEFAULT_MARGIN / 2 }
    let (out, tb) := UnorderedListProcess.ulItems n input opts out tb node.content state
    if state.global_indent = DEFAULT_MARGIN / 2 then (Process.push_spacer out, tb)
    else (out, tb)
termination_by structural fuel

/-- Item loop of `UnorderedListProcess::process` (ast.rs).  One unit of
fuel per item. -/
def UnorderedListProcess.ulItems (fuel : Nat) (input : List HirNode) (opts : AstOpts)
    (out : List Element) (tb : TextBox) (items : List TextOrHirNode)
    (state : InheritedState) : List Element × TextBox :=
  match fuel, items with
  | 0, _ => (out, tb)
  | _ + 1, [] => (out, tb)
  | n + 1, .Text _ :: rest => UnorderedListProcess.ulItems n input opts out tb rest state
  | n + 1, .Hir i :: rest =>
    let nd := Process.getNodeD input i
    if nd.tag = .ListItem then
      let res := ListItemProcess.process n input opts out tb none nd state
      UnorderedListProcess.ulItems n input opts res.1 res.2 rest state
    else UnorderedListProcess.ulItems n input opts out tb rest state
termination_by structural fuel

/-- Method `ListItemProcess::process` (ast.rs): unless the first content
child is a checkbox input, a bold prefix fragment is pushed onto the
accumulator (`"{num}. "` for ordered items, a bullet for unordered);
then the item's content is processed and the box flushed. -/
def ListItemProcess.process (fuel : Nat) (input : List HirNode) (opts : AstOpts)
    (out : List Element) (tb : TextBox) (numbering : Option Nat) (node : HirNode)
    (state : InheritedState) : List Element × TextBox :=
  match fuel with
  | 0 => (out, tb)
  | n + 1 =>
    let first_child_is_checkbox := ListItemProcess.firstChildCheckbox input node
    let tb :=
      if ¬first_child_is_checkbox then
        tb.pushText
          ((Text.new
            (match numbering with
             | some num => toString num ++ ". "
             | none => "· ")
            opts.hidpi_scale
            (opts.native_color opts.theme.text_color)).make_bold true)
      else tb
    let (out, tb) := FlowProcess.processContent n input opts out tb node.content state
    Process.push_text_box out tb opts state
termination_by structural fuel

end

/-- Inherited state created once per top-level traversal
(`InheritedState::with_span_color(native_color(theme.code_color))`,
ast.rs `Ast::interpret`). -/
def Ast.initState (opts : AstOpts) : InheritedState :=
  InheritedState.with_span_color (opts.native_color opts.theme.code_color)

/-- Renders one top-level child of the root (the closure of the
`filter_map` in `Ast::interpret`, ast.rs): a child reference is
processed with a fresh output vector and a fresh accumulator box (the
accumulator is dropped, never flushed); literal text yields nothing. -/
def Ast.renderRootChild (opts : AstOpts) (fuel : Nat) (nodes : List HirNode) :
    TextOrHirNode → Option (List Element)
  | .Hir node =>
    some (FlowProcess.process fuel nodes opts [] (TextBox.new [] opts.hidpi_scale)
      (Process.getNodeD nodes node) (Ast.initState opts)).1
  | .Text _ => none

/-- Iteration of `Ast::interpret` over the root's content
(`root.into_par_iter().filter_map(..).flatten().collect()`, ast.rs):
rayon's ordered collect is embedded as its deterministic semantics, an
in-order concatenation. -/
def Ast.interpretContent (opts : AstOpts) (fuel : Nat) (nodes : List HirNode)
    (content : List TextOrHirNode) : List Element :=
  (content.filterMap (Ast.renderRootChild opts fuel nodes)).flatten

/-- Method `Ast::interpret` (ast.rs): reads the root node (index 0) and
renders its content. -/
def Ast.interpret (opts : AstOpts) (fuel : Nat) (nodes : List HirNode) : List Element :=
  let root := nodes.headD { tag := .Root, attributes := [], content := [] }
  Ast.interpretContent opts fuel nodes root.content

/-- Follows the spec's words (section 5): the top-level children of the
root are processed independently — fresh state, fresh accumulator — and
their results are appended sequentially in original document order. -/
def Ast.seqStep (opts : AstOpts) (fuel : Nat) (nodes : List HirNode)
    (acc : List Element) (ton : TextOrHirNode) : List Element :=
  match Ast.renderRootChild opts fuel nodes ton with
  | some elems => acc ++ elems
  | none => acc

/-- Follows the spec's words (section 5): sequential accumulation of the
per-child results, see `Ast.seqStep`. -/
def Ast.interpretSeq (opts : AstOpts) (fuel : Nat) (nodes : List HirNode)
    (content : List TextOrHirNode) : List Element :=
  content.foldl (Ast.seqStep opts fuel nodes) []

/-- Follows the spec's words (section 4.3): pairs every content item of
a list with the running index it should consume — the k-th list-item
child (0-based k) of an ordered list started at `index` is assigned
`index + k`, every other item is assigned nothing. -/
def olAssign (input : List HirNode) (index : Nat) :
    List TextOrHirNode → List (TextOrHirNode × Option Nat)
  | [] => []
  | .Text s :: rest => (.Text s, none) :: olAssign input index rest
  | .Hir i :: rest =>
    if (Process.getNodeD input i).tag = .ListItem then
      (.Hir i, some index) :: olAssign input (index + 1) rest
    else
      (.Hir i, none) :: olAssign input index rest

/-- Number of list-item children among a content list. -/
def countListItems (input : List HirNode) : List TextOrHirNode → Nat
  | [] => 0
  | .Text _ :: rest => countListItems input rest
  | .Hir i :: rest =>
    (if (Process.getNodeD input i).tag = .ListItem then 1 else 0) + countListItems input rest

/-- Follows the spec's words (section 4.3): runs the item loop over
pre-assigned indices — each entry carrying an index is a list item
processed with exactly that index. -/
def olRunAssigned (fuel : Nat) (input : List HirNode) (opts : AstOpts)
    (out : List Element) (tb : TextBox)
    (entries : List (TextOrHirNode × Option Nat))
    (state : InheritedState) : List Element × TextBox :=
  match fuel, entries with
  | 0, _ => (out, tb)
  | _ + 1, [] => (out, tb)
  | n + 1, (.Hir i, some num) :: rest =>
    let res := ListItemProcess.process n input opts out tb (some num)
      (Process.getNodeD input i) state
    olRunAssigned n input opts res.1 res.2 rest state
  | n + 1, _ :: rest => olRunAssigned n input opts out tb rest state

/-!
Invariant of the arena builder (spec section 3), and concrete fixtures
used by witnesses and counterexamples.
-/

/-- Reference validity of an arena: every child index stored in a
content item points past its referencing node and into the arena. -/
def RefsOk (arena : List HirNode) : Prop :=
  ∀ j nd, arena[j]? = some nd →
    ∀ i, TextOrHirNode.Hir i ∈ nd.content → j < i ∧ i < arena.length

/-- Builder invariant: references are valid, every parent-stack entry is
in range, and the arena is never empty (the root is at index 0). -/
def Builder.Inv (b : Builder) : Prop :=
  RefsOk b.arena ∧ (∀ p ∈ b.parents, p < b.arena.length) ∧ b.arena ≠ []

/-- Concrete interpreter options used by witnesses and counterexamples. -/
def optsW : AstOpts :=
  { theme := { text_color := 1, code_color := 2, link_color := 3 }, hidpi_scale := 1 }

/-- Concrete inherited state matching `Ast::interpret`'s initial state. -/
def stW : InheritedState := Ast.initState optsW

/-- Builder state after opening `<b>` and `<i>` (hir.rs revision). -/
def rcStBI : RcHir.Hir :=
  (RcHir.Hir.new.process_start_tag { kind := .StartTag, name := "b", attrs := [], self_closing := false }).process_start_tag
    { kind := .StartTag, name := "i", attrs := [], self_closing := false }

/-- Concrete arena: a root whose only child is an empty table. -/
def arenaTab : List HirNode :=
  [ { tag := .Root, attributes := [], content := [.Hir 1] },
    { tag := .Table, attributes := [], content := [] } ]

/-- Concrete arena for the checkbox list item: the root holds a list
item whose first child is a checkbox input (checked when `c` is true)
followed by literal text. -/
def arenaCheck (c : Bool) : List HirNode :=
  [ { tag := .Root, attributes := [], content := [.Hir 1] },
    { tag := .ListItem, attributes := [],
      content := [.Hir 2, .Text "x"] },
    { tag := .Input,
      attributes := if c then [.IsCheckbox, .IsChecked] else [.IsCheckbox],
      content := [] } ]

/-- Concrete builder event sequence: one paragraph with text. -/
def eventsW : List BEvent :=
  [.openTag "p" [] false, .text "x", .closeTag "p", .eof]

/-- Concrete inherited state with both the code flag and a pending link
set, as inside a `<code>` span nested in an anchor. -/
def stCodeLink : InheritedState :=
  { stW with text_options := { stW.text_options with code := true, link := some "u" } }

/-- Concrete arena: an ordered list with start 5 and two plain items. -/
def arenaOl : List HirNode :=
  [ { tag := .Root, attributes := [], content := [.Hir 1] },
    { tag := .OrderedList, attributes := [.Start 5], content := [.Hir 2, .Hir 3] },
    { tag := .ListItem, attributes := [], content := [.Text "a"] },
    { tag := .ListItem, attributes := [], content := [.Text "b"] } ]

/-!
Theorems.  Each claim of the specification gets exactly one theorem
(with a witness when it carries hypotheses, and a counterexample when
the claim as stated fails on the code).
-/

/-- C9: a call to `push_text_box` whose accumulator contains no
fragments at all leaves the output sequence unchanged and transfers the
accumulator's checkbox state onto the fresh replacement accumulator. -/
theorem c9_empty_flush_keeps_output_and_moves_checkbox
    (out : List Element) (tb : TextBox) (opts : AstOpts) (state : InheritedState)
    (h : tb.texts = []) :
    Process.push_text_box out tb opts state
      = (out, { TextBox.new [] opts.hidpi_scale with
                  indent := state.global_indent, is_checkbox := tb.is_checkbox }) := by
  simp [Process.push_text_box, h]

/-- Witness for C9: a fragment-free accumulator with a set checkbox
flag, flushed against an empty output. -/
theorem c9_empty_flush_keeps_output_and_moves_checkbox_witness :
    ((TextBox.new [] (1 : Rat)).set_checkbox (some true)).texts = [] ∧
    Process.push_text_box [] ((TextBox.new [] (1 : Rat)).set_checkbox (some true)) optsW stW
      = ([], { TextBox.new [] optsW.hidpi_scale with
                 indent := stW.global_indent,
                 is_checkbox := ((TextBox.new [] (1 : Rat)).set_checkbox (some true)).is_checkbox }) :=
  ⟨rfl, c9_empty_flush_keeps_output_and_moves_checkbox [] _ optsW stW rfl⟩

/-- C1 (amended): when `close(tag)` resolves to a recognized tag kind
that differs from the top of the closing stack, the operation fails, the
closing stack is still popped, and traversal continues (`process_token`
drops the error) — but the current-node pointer is NOT moved to the
parent: the early `bail!` fires before `self.current = parent`. -/
theorem c1_mismatched_close_pops_closing_stack_only
    (h : RcHir.Hir) (tag : RcHir.Tag) (tn top : TagName) (rest : List TagName)
    (hres : TagName.ofName tag.name = some tn)
    (hstack : h.to_close = top :: rest)
    (hne : tn ≠ top)
    (hkind : tag.kind = .EndTag) :
    RcHir.Hir.process_end_tag h tag
      = ({ h with to_close := rest }, some "Expected other tag") ∧
    RcHir.Hir.process_token h (.TagToken tag) = { h with to_close := rest } := by
  have h1 : RcHir.Hir.process_end_tag h tag
      = ({ h with to_close := rest }, some "Expected other tag") := by
    unfold RcHir.Hir.process_end_tag
    rw [hres, hstack]
    simp [hne]
  refine ⟨h1, ?_⟩
  obtain ⟨k, nm, ats, sc⟩ := tag
  cases k with
  | StartTag => exact absurd hkind (by simp)
  | EndTag =>
    show (RcHir.Hir.process_end_tag h
      { kind := .EndTag, name := nm, attrs := ats, self_closing := sc }).1 = _
    rw [h1]

/-- Witness for C1: closing `</b>` while `<i>` is innermost. -/
theorem c1_mismatched_close_pops_closing_stack_only_witness :
    TagName.ofName "b" = some TagName.BoldOrStrong ∧
    rcStBI.to_close = TagName.EmphasisOrItalic :: [TagName.BoldOrStrong, TagName.Root] ∧
    TagName.BoldOrStrong ≠ TagName.EmphasisOrItalic ∧
    (RcHir.Hir.process_end_tag rcStBI
        { kind := .EndTag, name := "b", attrs := [], self_closing := false }
      = ({ rcStBI with to_close := [TagName.BoldOrStrong, TagName.Root] },
         some "Expected other tag") ∧
     RcHir.Hir.process_token rcStBI
        (.TagToken { kind := .EndTag, name := "b", attrs := [], self_closing := false })
      = { rcStBI with to_close := [TagName.BoldOrStrong, TagName.Root] }) :=
  ⟨rfl, by decide, by decide,
   c1_mismatched_close_pops_closing_stack_only rcStBI
     { kind := .EndTag, name := "b", attrs := [], self_closing := false }
     TagName.BoldOrStrong TagName.EmphasisOrItalic [TagName.BoldOrStrong, TagName.Root]
     rfl (by decide) (by decide) rfl⟩

/-- Counterexample for C1 as stated: after `<b><i>`, closing `</b>`
fails and pops the closing stack, but the current node stays the `<i>`
node (index 2) instead of moving to its parent (index 1) — the parent
pointer is not popped. -/
theorem c1_counterexample_parent_not_popped :
    (RcHir.Hir.process_end_tag rcStBI
        { kind := .EndTag, name := "b", attrs := [], self_closing := false }).2.isSome = true ∧
    (RcHir.Hir.process_end_tag rcStBI
        { kind := .EndTag, name := "b", attrs := [], self_closing := false }).1.to_close
      = [TagName.BoldOrStrong, TagName.Root] ∧
    ((rcStBI.store[rcStBI.current]?).bind RcHir.HirNode.parent) = some 1 ∧
    (RcHir.Hir.process_end_tag rcStBI
        { kind := .EndTag, name := "b", attrs := [], self_closing := false }).1.current = 2 ∧
    (RcHir.Hir.process_end_tag rcStBI
        { kind := .EndTag, name := "b", attrs := [], self_closing := false }).1.current ≠ 1 := by
  decide

/-- C3 (amended): `text(string)` always appends the string as a text
content item to the current node — including a lone newline on a node
with empty content; nothing else of the builder state changes. -/
theorem c3_text_always_appended
    (h : RcHir.Hir) (s : String) (nd : RcHir.HirNode)
    (hc : h.store[h.current]? = some nd) :
    (h.process_text s).store[h.current]?
      = some { nd with content := nd.content ++ [.Text s] } ∧
    (h.process_text s).current = h.current ∧
    (h.process_text s).to_close = h.to_close := by
  have hlt : h.current < h.store.length := (List.getElem?_eq_some.mp hc).1
  unfold RcHir.Hir.process_text RcHir.Hir.pushContent
  rw [hc]
  exact ⟨List.getElem?_set_self hlt, rfl, rfl⟩

/-- Witness for C3: a lone newline pushed onto the fresh builder, whose
root content is empty. -/
theorem c3_text_always_appended_witness :
    RcHir.Hir.new.store[RcHir.Hir.new.current]?
      = some { parent := none, tag := .Root, attributes := [], content := [] } ∧
    ((RcHir.Hir.new.process_text "\n").store[RcHir.Hir.new.current]?
      = some { parent := none, tag := .Root, attributes := [],
               content := ([] : List TextOrHirNode) ++ [.Text "\n"] } ∧
     (RcHir.Hir.new.process_text "\n").current = RcHir.Hir.new.current ∧
     (RcHir.Hir.new.process_text "\n").to_close = RcHir.Hir.new.to_close) :=
  ⟨rfl, c3_text_always_appended RcHir.Hir.new "\n" _ rfl⟩

/-- Counterexample for C3 as stated: a string that is exactly one
newline arriving while the current (root) node's content is empty is
appended, not dropped. -/
theorem c3_counterexample_newline_not_dropped :
    ((RcHir.Hir.new.process_text "\n").store[0]?).map RcHir.HirNode.content
      = some [TextOrHirNode.Text "\n"] ∧
    ¬ ((RcHir.Hir.new.process_text "\n").store[0]?).map RcHir.HirNode.content
      = some [] := by
  decide

/-- C10: a literal text item among the root's top-level content
contributes nothing — `Ast::interpret`'s filter keeps only child-node
references, so root-level text never reaches the text-run composer. -/
theorem c10_root_level_text_discarded
    (opts : AstOpts) (fuel : Nat) (nodes : List HirNode)
    (pre post : List TextOrHirNode) (t : String) :
    Ast.interpretContent opts fuel nodes (pre ++ .Text t :: post)
      = Ast.interpretContent opts fuel nodes (pre ++ post) := by
  simp [Ast.interpretContent, List.filterMap_append, List.filterMap_cons,
    Ast.renderRootChild]

/-- Sequential accumulation over root children equals the flattened
filter-map that `Ast::interpret` performs. -/
theorem Ast.seq_foldl_eq (opts : AstOpts) (fuel : Nat) (nodes : List HirNode) :
    ∀ (content : List TextOrHirNode) (acc : List Element),
      content.foldl (Ast.seqStep opts fuel nodes) acc
        = acc ++ (content.filterMap (Ast.renderRootChild opts fuel nodes)).flatten := by
  intro content
  induction content with
  | nil => intro acc; simp
  | cons x rest ih =>
    intro acc
    rw [List.foldl_cons, List.filterMap_cons]
    cases hx : Ast.renderRootChild opts fuel nodes x with
    | none => simp [Ast.seqStep, hx, ih]
    | some es => simp [Ast.seqStep, hx, ih]

/-- C8: `interpret` is a pure function of tree and options (two runs
coincide definitionally), and its parallel-iteration semantics — ordered
collect of independently rendered top-level children — equals the
sequential in-document-order concatenation `interpretSeq` built from the
spec's words. -/
theorem c8_interpret_is_ordered_concat
    (opts : AstOpts) (fuel : Nat) (nodes : List HirNode) :
    (∀ content, Ast.interpretContent opts fuel nodes content
        = Ast.interpretSeq opts fuel nodes content) ∧
    Ast.interpret opts fuel nodes
      = Ast.interpretSeq opts fuel nodes
          (nodes.headD { tag := .Root, attributes := [], content := [] }).content := by
  have key : ∀ content, Ast.interpretContent opts fuel nodes content
      = Ast.interpretSeq opts fuel nodes content := by
    intro content
    rw [Ast.interpretSeq, Ast.seq_foldl_eq, Ast.interpretContent, List.nil_append]
  exact ⟨key, key _⟩

/-- The cell processor never touches the output sequence: its first
component is returned unchanged. -/
theorem TableCellProcess.cell_out_unchanged (input : List HirNode) (out : List Element)
    (opts : AstOpts) (table : Table) (header : Bool) (nd : HirNode)
    (st : InheritedState) :
    (TableCellProcess.process input out opts table header nd st).1 = out := by
  unfold TableCellProcess.process
  cases h : table.rows.getLast? <;> simp [h]

/-- One row step never touches the output sequence. -/
theorem TableRowProcess.row_step_out_unchanged (input : List HirNode) (opts : AstOpts)
    (st : InheritedState) (acc : List Element × Table) (item : TextOrHirNode) :
    (TableRowProcess.step input opts st acc item).1 = acc.1 := by
  unfold TableRowProcess.step
  cases item with
  | Text s => rfl
  | Hir i =>
    dsimp only
    split <;> simp [TableCellProcess.cell_out_unchanged]

/-- The row processor never touches the output sequence. -/
theorem TableRowProcess.row_out_unchanged (input : List HirNode) (out : List Element)
    (opts : AstOpts) (table : Table) (nd : HirNode) (st : InheritedState) :
    (TableRowProcess.process input out opts table nd st).1 = out := by
  unfold TableRowProcess.process
  suffices h : ∀ (content : List TextOrHirNode) (acc : List Element × Table),
      (content.foldl (TableRowProcess.step input opts st) acc).1 = acc.1 by
    exact h nd.content (out, table)
  intro content
  induction content with
  | nil => intro acc; rfl
  | cons x rest ih =>
    intro acc
    rw [List.foldl_cons, ih, TableRowProcess.row_step_out_unchanged]

/-- One head/body step never touches the output sequence. -/
theorem TableHeadProcess.head_step_out_unchanged (input : List HirNode) (opts : AstOpts)
    (st : InheritedState) (acc : List Element × Table) (item : TextOrHirNode) :
    (TableHeadProcess.step input opts st acc item).1 = acc.1 := by
  unfold TableHeadProcess.step
  cases item with
  | Text s => rfl
  | Hir i =>
    dsimp only
    split <;> simp [TableRowProcess.row_out_unchanged]

/-- The head/body processor never touches the output sequence. -/
theorem TableHeadProcess.head_out_unchanged (input : List HirNode) (out : List Element)
    (opts : AstOpts) (table : Table) (nd : HirNode) (st : InheritedState) :
    (TableHeadProcess.process input out opts table nd st).1 = out := by
  unfold TableHeadProcess.process
  suffices h : ∀ (content : List TextOrHirNode) (acc : List Element × Table),
      (content.foldl (TableHeadProcess.step input opts st) acc).1 = acc.1 by
    exact h nd.content (out, table)
  intro content
  induction content with
  | nil => intro acc; rfl
  | cons x rest ih =>
    intro acc
    rw [List.foldl_cons, ih, TableHeadProcess.head_step_out_unchanged]

/-- One table step never touches the output sequence. -/
theorem TableProcess.table_step_out_unchanged (input : List HirNode) (opts : AstOpts)
    (st : InheritedState) (acc : List Element × Table) (item : TextOrHirNode) :
    (TableProcess.step input opts st acc item).1 = acc.1 := by
  unfold TableProcess.step
  cases item with
  | Text s => rfl
  | Hir i =>
    dsimp only
    split <;> simp [TableHeadProcess.head_out_unchanged, TableRowProcess.row_out_unchanged]

/-- The table fold never touches the output sequence. -/
theorem TableProcess.fold_out (input : List HirNode) (opts : AstOpts)
    (st : InheritedState) :
    ∀ (content : List TextOrHirNode) (acc : List Element × Table),
      (content.foldl (TableProcess.step input opts st) acc).1 = acc.1 := by
  intro content
  induction content with
  | nil => intro acc; rfl
  | cons x rest ih =>
    intro acc
    rw [List.foldl_cons, ih, TableProcess.table_step_out_unchanged]

/-- C7 (amended): a table node reached by the flow interpreter appends
exactly one Table element followed immediately by one invisible spacer;
nothing is emitted before the table — there is no preceding spacer and
the current text box is neither flushed nor modified. -/
theorem c7_table_appends_table_then_spacer
    (fuel : Nat) (input : List HirNode) (opts : AstOpts) (out : List Element)
    (tb : TextBox) (node : HirNode) (state : InheritedState)
    (htag : node.tag = .Table) :
    ∃ t : Table,
      FlowProcess.process (fuel + 1) input opts out tb node state
        = (out ++ [Element.table t, Element.spacer false], tb) := by
  refine ⟨(node.content.foldl (TableProcess.step input opts state) (out, Table.new)).2, ?_⟩
  have harm : FlowProcess.process (fuel + 1) input opts out tb node state
      = (TableProcess.process input out opts node state, tb) := by
    unfold FlowProcess.process
    rw [htag]
  rw [harm]
  unfold TableProcess.process Process.push_spacer Process.push_element
  simp [TableProcess.fold_out]

/-- Witness for C7: an empty table as the only child of the root,
interpreted against an empty output. -/
theorem c7_table_appends_table_then_spacer_witness :
    ({ tag := .Table, attributes := [], content := [] } : HirNode).tag = TagName.Table ∧
    ∃ t : Table,
      FlowProcess.process 2 arenaTab optsW [] (TextBox.new [] optsW.hidpi_scale)
          { tag := .Table, attributes := [], content := [] } stW
        = ([] ++ [Element.table t, Element.spacer false], TextBox.new [] optsW.hidpi_scale) :=
  ⟨rfl, c7_table_appends_table_then_spacer 1 arenaTab optsW []
    (TextBox.new [] optsW.hidpi_scale)
    { tag := .Table, attributes := [], content := [] } stW rfl⟩

/-- Counterexample for C7 as stated: interpreting a document whose only
element is a table puts the Table element first in the output — no
spacer precedes it. -/
theorem c7_counterexample_no_spacer_before_table :
    Ast.interpret optsW 2 arenaTab
      = [Element.table { rows := [] }, Element.spacer false] ∧
    (Ast.interpret optsW 2 arenaTab).head? = some (Element.table { rows := [] }) ∧
    ¬ (Ast.interpret optsW 2 arenaTab).head? = some (Element.spacer false) ∧
    ¬ (Ast.interpret optsW 2 arenaTab).head? = some (Element.spacer true) := by
  decide

/-- C4: a non-whitespace text run composed while both the code flag and
a pending link are set yields exactly one new fragment, colored with the
theme link color (link styling is applied after code styling —
last-applied-wins), carrying the link target, and in the monospace
family that code styling set. -/
theorem c4_link_color_overrides_code_color
    (tb : TextBox) (s : String) (opts : AstOpts) (state : InheritedState) (l : String)
    (hcode : state.text_options.code = true)
    (hlink : state.text_options.link = some l)
    (hs : trimBoth s ≠ "") :
    (Process.text tb s opts state).texts.length = tb.texts.length + 1 ∧
    ((Process.text tb s opts state).texts.getLast?.map Text.color)
      = some (opts.native_color opts.theme.link_color) ∧
    ((Process.text tb s opts state).texts.getLast?.bind Text.link) = some l ∧
    ((Process.text tb s opts state).texts.getLast?.map Text.font_family)
      = some Family.Monospace ∧
    (state.span.color ≠ opts.native_color opts.theme.link_color →
      ¬ ((Process.text tb s opts state).texts.getLast?.map Text.color)
          = some state.span.color) := by
  have hnl : ¬ s = "\n" := by intro h; apply hs; rw [h]; decide
  have hc2 : ¬ (trimBoth s = "" ∧ ¬ state.text_options.pre_formatted) := by
    intro h; exact hs h.1
  have core :
      (Process.text tb s opts state).texts.length = tb.texts.length + 1 ∧
      ((Process.text tb s opts state).texts.getLast?.map Text.color)
        = some (opts.native_color opts.theme.link_color) ∧
      ((Process.text tb s opts state).texts.getLast?.bind Text.link) = some l ∧
      ((Process.text tb s opts state).texts.getLast?.map Text.font_family)
        = some Family.Monospace := by
    unfold Process.text
    rw [if_neg hnl, if_neg hc2]
    simp only [hlink, hcode, if_true]
    set_option maxRecDepth 4000 in
    simp [Text.new, Text.with_color, Text.with_link, Text.with_family,
      Text.make_bold, Text.make_italic, Text.make_underlined, Text.make_striked,
      TextBox.pushText, TextBox.set_quote_block,
      apply_ite Text.color, apply_ite Text.link, apply_ite Text.font_family,
      apply_ite TextBox.texts, List.getLast?_concat]
  refine ⟨core.1, core.2.1, core.2.2.1, core.2.2.2, ?_⟩
  intro hne hcontra
  rw [core.2.1] at hcontra
  exact hne (Option.some_injective _ hcontra).symm

/-- Witness for C4: the run "x" composed under code styling with
pending link "u". -/
theorem c4_link_color_overrides_code_color_witness :
    stCodeLink.text_options.code = true ∧
    stCodeLink.text_options.link = some "u" ∧
    trimBoth "x" ≠ "" ∧
    ((Process.text (TextBox.new [] 1) "x" optsW stCodeLink).texts.length
        = (TextBox.new [] (1 : Rat)).texts.length + 1 ∧
     ((Process.text (TextBox.new [] 1) "x" optsW stCodeLink).texts.getLast?.map Text.color)
        = some (optsW.native_color optsW.theme.link_color) ∧
     ((Process.text (TextBox.new [] 1) "x" optsW stCodeLink).texts.getLast?.bind Text.link)
        = some "u" ∧
     ((Process.text (TextBox.new [] 1) "x" optsW stCodeLink).texts.getLast?.map Text.font_family)
        = some Family.Monospace ∧
     (stCodeLink.span.color ≠ optsW.native_color optsW.theme.link_color →
       ¬ ((Process.text (TextBox.new [] 1) "x" optsW stCodeLink).texts.getLast?.map Text.color)
           = some stCodeLink.span.color)) :=
  ⟨rfl, rfl, by decide,
   c4_link_color_overrides_code_color (TextBox.new [] 1) "x" optsW stCodeLink "u"
     rfl rfl (by decide)⟩

/-- The initial builder state satisfies the invariant. -/
theorem Builder.inv_init : Builder.Inv Builder.init := by
  refine ⟨?_, ?_, ?_⟩
  · intro j nd hj i hi
    cases j with
    | zero =>
      simp [Builder.init] at hj
      rw [← hj] at hi
      simp at hi
    | succ k => simp [Builder.init] at hj
  · intro p hp
    simp [Builder.init] at hp
    simp [Builder.init, hp]
  · simp [Builder.init]

/-- Appending a text content item to an existing node preserves
reference validity. -/
theorem RefsOk.set_text (arena : List HirNode) (cur : Nat) (nd : HirNode) (s : String)
    (h : RefsOk arena) (hc : arena[cur]? = some nd) :
    RefsOk (arena.set cur { nd with content := nd.content ++ [.Text s] }) := by
  intro j nd' hj i hi
  rw [List.getElem?_set] at hj
  rw [List.length_set]
  by_cases hjc : cur = j
  · subst hjc
    have hlt : cur < arena.length := (List.getElem?_eq_some.mp hc).1
    rw [if_pos rfl, if_pos hlt] at hj
    cases hj
    simp only [List.mem_append] at hi
    rcases hi with hi | hi
    · exact h cur nd hc i hi
    · simp at hi
  · rw [if_neg hjc] at hj
    exact h j nd' hj i hi

/-- Every builder step preserves the invariant. -/
theorem Builder.inv_step (b : Builder) (e : BEvent) (h : Builder.Inv b) :
    Builder.Inv (b.step e) := by
  obtain ⟨href, hpar, hne⟩ := h
  have hcur : b.currentIdx < b.arena.length := by
    unfold Builder.currentIdx
    cases hp : b.parents with
    | nil => simpa using List.length_pos.mpr hne
    | cons p ps =>
      simpa using hpar p (by rw [hp]; exact List.mem_cons_self p ps)
  cases e with
  | eof => exact ⟨href, hpar, hne⟩
  | text s =>
    show Builder.Inv (b.textEvent s)
    unfold Builder.textEvent
    split
    · exact ⟨href, hpar, hne⟩
    · show Builder.Inv (b.pushContent b.currentIdx (.Text s))
      unfold Builder.pushContent
      cases hc : b.arena[b.currentIdx]? with
      | none => exact ⟨href, hpar, hne⟩
      | some nd =>
        refine ⟨RefsOk.set_text b.arena b.currentIdx nd s href hc, ?_, ?_⟩
        · intro p hp
          rw [List.length_set]
          exact hpar p hp
        · intro hcontra
          have hlen := congrArg List.length hcontra
          simp only [List.length_set, List.length_nil] at hlen
          exact hne (List.length_eq_zero.mp hlen)
  | closeTag name =>
    show Builder.Inv (b.closeTag name)
    unfold Builder.closeTag
    cases hres : TagName.ofName name with
    | none => exact ⟨href, hpar, hne⟩
    | some tn =>
      dsimp only
      split
      · exact ⟨href, hpar, hne⟩
      · split
        · exact ⟨href, hpar, hne⟩
        · refine ⟨href, ?_, hne⟩
          intro p hp
          exact hpar p (List.mem_of_mem_tail hp)
  | openTag name attrs sc =>
    show Builder.Inv (b.openTag name attrs sc)
    unfold Builder.openTag
    cases hres : TagName.ofName name with
    | none => exact ⟨href, hpar, hne⟩
    | some tn =>
      dsimp only
      have hold : b.arena[b.currentIdx]? = some b.arena[b.currentIdx] :=
        List.getElem?_eq_getElem hcur
      have hget : (b.arena ++ [({ tag := tn, attributes := attrs, content := [] } : HirNode)])[b.currentIdx]?
          = some b.arena[b.currentIdx] := by
        rw [List.getElem?_append, if_pos hcur]
        exact hold
      have hrefs2 : RefsOk
          ((b.arena ++ [({ tag := tn, attributes := attrs, content := [] } : HirNode)]).set
            b.currentIdx
            { b.arena[b.currentIdx] with
                content := b.arena[b.currentIdx].content ++ [.Hir b.arena.length] }) := by
        intro j nd' hj i hi
        rw [List.length_set, List.length_append, List.length_singleton]
        rw [List.getElem?_set] at hj
        by_cases hjc : b.currentIdx = j
        · subst hjc
          rw [if_pos rfl, if_pos (by
            rw [List.length_append, List.length_singleton]; omega)] at hj
          cases hj
          simp only [List.mem_append] at hi
          rcases hi with hi | hi
          · obtain ⟨h1, h2⟩ := href b.currentIdx _ hold i hi
            exact ⟨h1, by omega⟩
          · simp only [List.mem_singleton] at hi
            cases hi
            exact ⟨hcur, by omega⟩
        · rw [if_neg hjc, List.getElem?_append] at hj
          by_cases hjl : j < b.arena.length
          · rw [if_pos hjl] at hj
            obtain ⟨h1, h2⟩ := href j nd' hj i hi
            exact ⟨h1, by omega⟩
          · rw [if_neg hjl] at hj
            cases hd : j - b.arena.length with
            | zero =>
              rw [hd] at hj
              simp at hj
              rw [← hj] at hi
              simp at hi
            | succ k =>
              rw [hd] at hj
              simp at hj
      unfold Builder.pushContent
      dsimp only
      rw [hget]
      split
      · refine ⟨hrefs2, ?_, ?_⟩
        · intro p hp
          dsimp only at hp
          rw [List.length_set, List.length_append, List.length_singleton]
          have := hpar p hp
          omega
        · intro hcontra
          have hlen := congrArg List.length hcontra
          simp only [List.length_set, List.length_append, List.length_singleton,
            List.length_nil] at hlen
          omega
      · refine ⟨hrefs2, ?_, ?_⟩
        · intro p hp
          dsimp only at hp
          rw [List.length_set, List.length_append, List.length_singleton]
          rcases List.mem_cons.mp hp with hp | hp
          · omega
          · have := hpar p hp
            omega
        · intro hcontra
          have hlen := congrArg List.length hcontra
          simp only [List.length_set, List.length_append, List.length_singleton,
            List.length_nil] at hlen
          omega

/-- The invariant holds for the tree built from any event sequence. -/
theorem Builder.inv_run (events : List BEvent) : Builder.Inv (Builder.run events) := by
  unfold Builder.run
  suffices h : ∀ (evs : List BEvent) (b : Builder),
      Builder.Inv b → Builder.Inv (evs.foldl Builder.step b) from
    h events Builder.init Builder.inv_init
  intro evs
  induction evs with
  | nil => intro b hb; exact hb
  | cons e rest ih => intro b hb; exact ih _ (Builder.inv_step b e hb)

/-- C2: in the tree produced by the builder from any event sequence,
every child index stored in a content item is strictly greater than the
index of the referencing node and strictly less than the arena length,
so get_node never takes its out-of-range (None) branch. -/
theorem c2_builder_refs_always_resolve
    (events : List BEvent) (j : Nat) (nd : HirNode) (i : Nat)
    (hj : (Builder.run events).arena[j]? = some nd)
    (hi : TextOrHirNode.Hir i ∈ nd.content) :
    j < i ∧ i < (Builder.run events).arena.length ∧
    (Process.get_node (Builder.run events).arena i).isSome = true := by
  obtain ⟨href, -, -⟩ := Builder.inv_run events
  obtain ⟨h1, h2⟩ := href j nd hj i hi
  refine ⟨h1, h2, ?_⟩
  unfold Process.get_node
  rw [List.getElem?_eq_getElem h2]
  rfl

/-- Witness for C2: the tree built from one paragraph of text. -/
theorem c2_builder_refs_always_resolve_witness :
    (Builder.run eventsW).arena[0]?
      = some { tag := TagName.Root, attributes := [], content := [.Hir 1] } ∧
    TextOrHirNode.Hir 1
      ∈ ({ tag := TagName.Root, attributes := [], content := [.Hir 1] } : HirNode).content ∧
    (0 < 1 ∧ 1 < (Builder.run eventsW).arena.length ∧
      (Process.get_node (Builder.run eventsW).arena 1).isSome = true) :=
  ⟨by decide, by decide,
   c2_builder_refs_always_resolve eventsW 0
     { tag := TagName.Root, attributes := [], content := [.Hir 1] } 1
     (by decide) (by decide)⟩

/-- C5: ordered-list numbering.  (1) The compiled item loop equals the
spec-side run over pre-assigned indices; (2) the assigned indices of the
list-item children are exactly `start, start+1, ...` in document order
(so the k-th list-item child, 1-based, consumes `start+k-1`, counting
checkbox items too); (3) the start index is 1 without a `start`
attribute and the last `start` attribute wins; (4) a numbered,
non-checkbox item pushes the bold prefix fragment `"{num}. "` before its
content; (5) an unnumbered (unordered-list) non-checkbox item pushes the
bold bullet prefix. -/
theorem c5_ordered_list_numbering :
    (∀ (fuel : Nat) (input : List HirNode) (opts : AstOpts) (out : List Element)
        (tb : TextBox) (items : List TextOrHirNode) (index : Nat) (state : InheritedState),
      OrderedListProcess.olItems fuel input opts out tb items index state
        = olRunAssigned fuel input opts out tb (olAssign input index items) state) ∧
    (∀ (input : List HirNode) (index : Nat) (items : List TextOrHirNode),
      (olAssign input index items).filterMap Prod.snd
        = List.range' index (countListItems input items)) ∧
    (olStartIndex [] = 1 ∧
      ∀ (attrs : List Attr) (n : Nat), olStartIndex (attrs ++ [.Start n]) = n) ∧
    (∀ (fuel : Nat) (input : List HirNode) (opts : AstOpts) (out : List Element)
        (tb : TextBox) (num : Nat) (node : HirNode) (state : InheritedState),
      ListItemProcess.firstChildCheckbox input node = false →
      ListItemProcess.process (fuel + 1) input opts out tb (some num) node state
        = Process.push_text_box
            (FlowProcess.processContent fuel input opts out
              (tb.pushText ((Text.new (toString num ++ ". ") opts.hidpi_scale
                (opts.native_color opts.theme.text_color)).make_bold true))
              node.content state).1
            (FlowProcess.processContent fuel input opts out
              (tb.pushText ((Text.new (toString num ++ ". ") opts.hidpi_scale
                (opts.native_color opts.theme.text_color)).make_bold true))
              node.content state).2
            opts state) ∧
    (∀ (fuel : Nat) (input : List HirNode) (opts : AstOpts) (out : List Element)
        (tb : TextBox) (node : HirNode) (state : InheritedState),
      ListItemProcess.firstChildCheckbox input node = false →
      ListItemProcess.process (fuel + 1) input opts out tb none node state
        = Process.push_text_box
            (FlowProcess.processContent fuel input opts out
              (tb.pushText ((Text.new "· " opts.hidpi_scale
                (opts.native_color opts.theme.text_color)).make_bold true))
              node.content state).1
            (FlowProcess.processContent fuel input opts out
              (tb.pushText ((Text.new "· " opts.hidpi_scale
                (opts.native_color opts.theme.text_color)).make_bold true))
              node.content state).2
            opts state) := by
  refine ⟨?_, ?_, ⟨rfl, ?_⟩, ?_, ?_⟩
  · intro fuel input opts out tb items index state
    induction items generalizing fuel out tb index with
    | nil => cases fuel <;> rfl
    | cons x rest ih =>
      cases fuel with
      | zero => rfl
      | succ n =>
        cases x with
        | Text s => exact ih n out tb index
        | Hir i =>
          by_cases htag : (Process.getNodeD input i).tag = .ListItem
          · simp only [OrderedListProcess.olItems, olAssign, if_pos htag, olRunAssigned]
            exact ih n _ _ (index + 1)
          · simp only [OrderedListProcess.olItems, olAssign, if_neg htag]
            exact ih n out tb index
  · intro input index items
    induction items generalizing index with
    | nil => rfl
    | cons x rest ih =>
      cases x with
      | Text s =>
        simp only [olAssign, countListItems, List.filterMap_cons]
        exact ih index
      | Hir i =>
        by_cases htag : (Process.getNodeD input i).tag = .ListItem
        · simp only [olAssign, countListItems, if_pos htag, List.filterMap_cons]
          rw [Nat.one_add, List.range'_succ]
          simp only [List.cons.injEq, true_and]
          exact ih (index + 1)
        · simp only [olAssign, countListItems, if_neg htag, List.filterMap_cons]
          simpa using ih index
  · intro attrs n
    unfold olStartIndex
    rw [List.foldl_append]
    rfl
  · intro fuel input opts out tb num node state hfcc
    simp only [ListItemProcess.process, hfcc]
    simp
  · intro fuel input opts out tb node state hfcc
    simp only [ListItemProcess.process, hfcc]
    simp

/-- Witness for C5: the ordered list with start 5 and two plain items —
its item loop matches the assigned run, the assigned indices are
`[5, 6]`, and the first item pushes the bold prefix "5. ". -/
theorem c5_ordered_list_numbering_witness :
    (OrderedListProcess.olItems 5 arenaOl optsW [] (TextBox.new [] optsW.hidpi_scale)
        [.Hir 2, .Hir 3] 5 stW
      = olRunAssigned 5 arenaOl optsW [] (TextBox.new [] optsW.hidpi_scale)
          (olAssign arenaOl 5 [.Hir 2, .Hir 3]) stW) ∧
    ((olAssign arenaOl 5 [.Hir 2, .Hir 3]).filterMap Prod.snd
      = List.range' 5 (countListItems arenaOl [.Hir 2, .Hir 3])) ∧
    ListItemProcess.firstChildCheckbox arenaOl (Process.getNodeD arenaOl 2) = false ∧
    (ListItemProcess.process 4 arenaOl optsW [] (TextBox.new [] optsW.hidpi_scale)
        (some 5) (Process.getNodeD arenaOl 2) stW
      = Process.push_text_box
          (FlowProcess.processContent 3 arenaOl optsW []
            ((TextBox.new [] optsW.hidpi_scale).pushText
              ((Text.new (toString 5 ++ ". ") optsW.hidpi_scale
                (optsW.native_color optsW.theme.text_color)).make_bold true))
            (Process.getNodeD arenaOl 2).content stW).1
          (FlowProcess.processContent 3 arenaOl optsW []
            ((TextBox.new [] optsW.hidpi_scale).pushText
              ((Text.new (toString 5 ++ ". ") optsW.hidpi_scale
                (optsW.native_color optsW.theme.text_color)).make_bold true))
            (Process.getNodeD arenaOl 2).content stW).2
          optsW stW) :=
  ⟨c5_ordered_list_numbering.1 5 arenaOl optsW [] (TextBox.new [] optsW.hidpi_scale)
      [.Hir 2, .Hir 3] 5 stW,
   c5_ordered_list_numbering.2.1 arenaOl 5 [.Hir 2, .Hir 3],
   by decide,
   c5_ordered_list_numbering.2.2.2.1 3 arenaOl optsW [] (TextBox.new [] optsW.hidpi_scale)
     5 (Process.getNodeD arenaOl 2) stW (by decide)⟩

/-- C6: checkbox list items.  (1) An item whose first content child is a
checkbox input pushes no bullet or number prefix — its content is
processed with the accumulator untouched; (2) interpreting the checkbox
input node sets the accumulator's checkbox flag to the input's checked
attribute; (3) the input flags are exactly the presence of the checkbox
and checked attributes; (4) end to end, a checkbox item emits one box
whose checkbox flag equals the checked attribute and whose fragments
contain only the item's own text, with no prefix. -/
theorem c6_checkbox_items_skip_bullet_and_carry_checked :
    (∀ (fuel : Nat) (input : List HirNode) (opts : AstOpts) (out : List Element)
        (tb : TextBox) (numbering : Option Nat) (node : HirNode) (state : InheritedState),
      ListItemProcess.firstChildCheckbox input node = true →
      ListItemProcess.process (fuel + 1) input opts out tb numbering node state
        = Process.push_text_box
            (FlowProcess.processContent fuel input opts out tb node.content state).1
            (FlowProcess.processContent fuel input opts out tb node.content state).2
            opts state) ∧
    (∀ (fuel : Nat) (input : List HirNode) (opts : AstOpts) (out : List Element)
        (tb : TextBox) (node : HirNode) (state : InheritedState),
      node.tag = .Input →
      (FlowProcess.inputFlags node.attributes).1 = true →
      FlowProcess.process (fuel + 1) input opts out tb node state
        = FlowProcess.processContent fuel input opts out
            (tb.set_checkbox (some (FlowProcess.inputFlags node.attributes).2))
            node.content state) ∧
    (∀ attrs : List Attr,
      (FlowProcess.inputFlags attrs).1 = attrs.any (fun a => decide (a = .IsCheckbox)) ∧
      (FlowProcess.inputFlags attrs).2 = attrs.any (fun a => decide (a = .IsChecked))) ∧
    (∀ c : Bool,
      ((ListItemProcess.process 4 (arenaCheck c) optsW [] (TextBox.new [] optsW.hidpi_scale)
          (some 7) (Process.getNodeD (arenaCheck c) 1) stW).1.map
        (fun e => match e with
          | .textBox b => (b.is_checkbox, b.texts.map Text.text)
          | _ => (none, [])))
        = [(some c, ["x"])]) := by
  refine ⟨?_, ?_, ?_, ?_⟩
  · intro fuel input opts out tb numbering node state hfcc
    simp only [ListItemProcess.process, hfcc]
    simp
  · intro fuel input opts out tb node state htag hcb
    unfold FlowProcess.process
    rw [htag]
    simp only [hcb, if_true]
  · have gen : ∀ (attrs : List Attr) (p : Bool × Bool),
        attrs.foldl
          (fun (fl : Bool × Bool) attr =>
            match attr with
            | .IsCheckbox => (true, fl.2)
            | .IsChecked => (fl.1, true)
            | _ => fl) p
        = (p.1 || attrs.any (fun a => decide (a = .IsCheckbox)),
           p.2 || attrs.any (fun a => decide (a = .IsChecked))) := by
      intro attrs
      induction attrs with
      | nil => intro p; simp
      | cons x rest ih =>
        intro p
        cases x <;> simp [ih, Bool.or_assoc]
    intro attrs
    unfold FlowProcess.inputFlags
    rw [gen attrs (false, false)]
    simp
  · intro c
    cases c <;> decide

/-- Witness for C6: the checked checkbox item of `arenaCheck`. -/
theorem c6_checkbox_items_skip_bullet_and_carry_checked_witness :
    ListItemProcess.firstChildCheckbox (arenaCheck true)
      (Process.getNodeD (arenaCheck true) 1) = true ∧
    (ListItemProcess.process 4 (arenaCheck true) optsW [] (TextBox.new [] optsW.hidpi_scale)
        (some 7) (Process.getNodeD (arenaCheck true) 1) stW
      = Process.push_text_box
          (FlowProcess.processContent 3 (arenaCheck true) optsW []
            (TextBox.new [] optsW.hidpi_scale)
            (Process.getNodeD (arenaCheck true) 1).content stW).1
          (FlowProcess.processContent 3 (arenaCheck true) optsW []
            (TextBox.new [] optsW.hidpi_scale)
            (Process.getNodeD (arenaCheck true) 1).content stW).2
          optsW stW) ∧
    (Process.getNodeD (arenaCheck true) 2).tag = TagName.Input ∧
    (FlowProcess.inputFlags (Process.getNodeD (arenaCheck true) 2).attributes).1 = true ∧
    (FlowProcess.process 3 (arenaCheck true) optsW [] (TextBox.new [] optsW.hidpi_scale)
        (Process.getNodeD (arenaCheck true) 2) stW
      = FlowProcess.processContent 2 (arenaCheck true) optsW []
          ((TextBox.new [] optsW.hidpi_scale).set_checkbox
            (some (FlowProcess.inputFlags (Process.getNodeD (arenaCheck true) 2).attributes).2))
          (Process.getNodeD (arenaCheck true) 2).content stW) :=
  ⟨by decide,
   c6_checkbox_items_skip_bullet_and_carry_checked.1 3 (arenaCheck true) optsW []
     (TextBox.new [] optsW.hidpi_scale) (some 7)
     (Process.getNodeD (arenaCheck true) 1) stW (by decide),
   by decide,
   by decide,
   c6_checkbox_items_skip_bullet_and_carry_checked.2.1 2 (arenaCheck true) optsW []
     (TextBox.new [] optsW.hidpi_scale) (Process.getNodeD (arenaCheck true) 2) stW
     (by decide) (by decide)⟩
